import Mathlib

/-!
Verification development for the TA-Remake updater (`src/main.cpp`).

The updater is a sequential C++ program.  It is embedded here by explicit state passing:

* `Env` holds what the program cannot control (the platform, the outcomes of the calls into
  libcurl, the decoding of an archive by libarchive);
* `State` holds what the program changes: the files, the open `FILE*` handles, the function-local
  `static int prevPercent`, and a trace of the calls and of the output lines;
* a function that can throw returns an `Outcome` together with the state reached, so that the
  state at the point of a `throw` is kept.

The helper loops of `while(true)` are driven by finite scripts (a finite archive, a finite list of
data blocks), so every function of the embedding is total.
-/

set_option maxRecDepth 20000

namespace Updater

/-! ## Failures -/

/-- What can be thrown: `UpdaterException(error)` of `main.cpp`, or another `std::exception`
(for instance the `std::filesystem::filesystem_error` of `create_directory`). -/
inductive Failure where
  | updater (error : String)
  | other
  deriving DecidableEq, Repr

/-- Result of a call that either returns a value or throws. -/
inductive Outcome (α : Type) where
  | ok (value : α)
  | raised (e : Failure)
  deriving DecidableEq, Repr

/-! ## Constants of the libraries (`curl/curl.h`, `archive.h`) -/

/-- `CURLE_OK` of `curl/curl.h`. -/
def CURLE_OK : Nat := 0

/-- `ARCHIVE_EOF` of `archive.h`. -/
def ARCHIVE_EOF : Int := 1
/-- `ARCHIVE_OK` of `archive.h`. -/
def ARCHIVE_OK : Int := 0
/-- `ARCHIVE_RETRY` of `archive.h`. -/
def ARCHIVE_RETRY : Int := -10
/-- `ARCHIVE_WARN` of `archive.h`. -/
def ARCHIVE_WARN : Int := -20
/-- `ARCHIVE_FAILED` of `archive.h`. -/
def ARCHIVE_FAILED : Int := -25
/-- `ARCHIVE_FATAL` of `archive.h`. -/
def ARCHIVE_FATAL : Int := -30

/-! ## Archives as scripts of library results -/

/-- One call of `archive_read_data_block(src, &buff, &size, &offset)` together with the result
that `archive_write_data_block(dst, buff, size, offset)` gives if it is called for that block.
`buff`, `size` and `offset` are the values of the out-parameters after the read. -/
structure DataBlock where
  readResult : Int
  buff : List Char
  size : Nat
  offset : Int
  writeResult : Int
  deriving DecidableEq, Repr

/-- One entry of the archive: the results of the four per-entry library calls of `extract`,
the path of the entry, and what `archive_error_string(src)` returns at the `throw` of the entry
(at most one check fails per entry): `some text`, or `none` for a null pointer, which is what the
source archive gives when it has recorded no error, for instance when the failure is one of the
disk writer `dst`. -/
structure ArchiveEntry where
  pathname : String
  nextHeaderResult : Int
  writeHeaderResult : Int
  blocks : List DataBlock
  finishResult : Int
  errorString : Option String
  deriving DecidableEq, Repr

/-! ## Environment, state, trace -/

/-- What one `curl_easy_perform` does: its result code, the bytes it hands to `writeData`, the
number of bytes the destination still takes (`room`), and the `(totalToDownload, nowDownloaded)`
pairs it hands to the progress callback. libcurl ends a transfer with `CURLE_WRITE_ERROR` when
the write callback returns less than it was handed, so the result is `CURLE_OK` only when there
was room for the whole body (`stored`). -/
structure Transfer where
  res : Nat
  body : List Char
  room : Nat
  progress : List (Int × Int)
  stored : res = CURLE_OK → body.length ≤ room

/-- Calls and output lines, in program order. -/
inductive Event where
  | print (text : String)
  | progressLine (percent : Int)
  | createDirectory (path : String)
  | downloadFile (url path : String)
  | fopen (path : String)
  | curlEasyInit
  | curlEasyPerform (url : String) (progress : Bool)
  | curlEasyCleanup
  | fclose (path : String)
  | extract (filename : String)
  | readNextHeader
  | writeHeader (pathname : String)
  | readDataBlock
  | writeDataBlock (buff : List Char) (size : Nat) (offset : Int)
  | writeFinishEntry
  deriving DecidableEq, Repr

/-- The surroundings of a run: `win32` is the `__WIN32` switch of the preprocessor,
`linuxReleaseURL` is the value of the identifier of that name, which the `#else` branch of
`downloadUpdate` uses and `main.cpp` does not declare,
`createDirectoryThrows` tells whether `std::filesystem::create_directory("update")` throws,
`canWrite path` whether `fopen(path, "wb")` gives a handle, `curlInit url` whether
`curl_easy_init()` gives a handle for the request of `url`, `transfer url` what
`curl_easy_perform` does for `url`, and `decode bytes` is the archive libarchive reads from a
file with these bytes (`none` when `archive_read_open_filename` fails). -/
structure Env where
  win32 : Bool
  linuxReleaseURL : String
  createDirectoryThrows : Bool
  canWrite : String → Bool
  curlInit : String → Bool
  transfer : String → Transfer
  decode : List Char → Option (List ArchiveEntry)

/-- The mutable state of a run: `files p = none` when `p` cannot be opened for reading. -/
structure State where
  files : String → Option (List Char)
  openHandles : List String
  prevPercent : Int
  trace : List Event

/-- State of a freshly started process over the given files
(`static int prevPercent = -1;`, no handle open, nothing printed). -/
def State.start (files : String → Option (List Char)) : State :=
  { files := files, openHandles := [], prevPercent := -1, trace := [] }

/-- Append an event to the trace. -/
def State.log (s : State) (e : Event) : State :=
  { s with trace := s.trace ++ [e] }

/-- Replace the content of one path. -/
def State.setFile (s : State) (path : String) (content : List Char) : State :=
  { s with files := fun p => if p = path then some content else s.files p }

/-! ## VersionStore: `getVersionFromFile` -/

/-- `isspace` in the "C" locale: space, `\t`, `\n`, `\v`, `\f`, `\r`. -/
def isspace (c : Char) : Bool :=
  c.toNat = 32 || (9 ≤ c.toNat && c.toNat ≤ 13)

/-- `fin >> version` for a `std::string`: leading white space is skipped; if the stream is then
at its end the string is left as it was, otherwise it is replaced by the characters up to the
next white space. -/
def streamExtract (content : List Char) (version : String) : String :=
  match content.dropWhile isspace with
  | [] => version
  | c :: rest => String.mk ((c :: rest).takeWhile (fun x => !isspace x))

/-- `std::string getVersionFromFile(std::string path)`. -/
def getVersionFromFile (path : String) (s : State) : Outcome String × State :=
  match s.files path with
  | none => (.raised (.updater ("failed to open file " ++ path)), s)
  | some content =>
    let version := ""
    let version := streamExtract content version
    (.ok version, s)

/-! ## Transport: `displayDownloadProgress`, `downloadFile` -/

/-- Value of a `long long` after arithmetic that wraps (two's complement, 64 bits). -/
def wrapLongLong (x : Int) : Int := (x + 2 ^ 63) % 2 ^ 64 - 2 ^ 63

/-- Conversion to `int` (two's complement, 32 bits). -/
def toInt32 (x : Int) : Int := (x + 2 ^ 31) % 2 ^ 32 - 2 ^ 31

/-- The local `percent` of `displayDownloadProgress`:
`100 * (long long)(nowDownloaded) / (long long)(totalToDownload)`, or 0 for a zero total. -/
def percentOf (totalToDownload nowDownloaded : Int) : Int :=
  if totalToDownload ≠ 0 then
    toInt32 (Int.tdiv (wrapLongLong (100 * nowDownloaded)) totalToDownload)
  else 0

/-- `size_t displayDownloadProgress(...)`; the upload arguments are unused. -/
def displayDownloadProgress (totalToDownload nowDownloaded : Int) (s : State) : Nat × State :=
  let percent := percentOf totalToDownload nowDownloaded
  if percent ≠ s.prevPercent then
    (0, { s.log (.progressLine percent) with prevPercent := percent })
  else (0, s)

/-- The progress callbacks of one transfer, in the order the transport delivers them. -/
def runProgress : List (Int × Int) → State → State
  | [], s => s
  | (total, now) :: rest, s => runProgress rest (displayDownloadProgress total now s).2

/-- `fwrite(ptr, size, nmemb, stream)` of the C library on a stream that still takes `room`
bytes: the items that fit are put at the end of the stream and their number is returned
(zero when `size` is zero). -/
def fwrite (ptr : List Char) (size nmemb : Nat) (room : Nat) (stream : List Char) :
    Nat × List Char :=
  if size = 0 then (0, stream)
  else
    let items := min nmemb (room / size)
    (items, stream ++ ptr.take (size * items))

/-- `size_t writeData(void* ptr, size_t size, size_t nmemb, FILE* stream)`: the number returned
is that of `fwrite`; the second component is the stream after the call. -/
def writeData (ptr : List Char) (size nmemb : Nat) (room : Nat) (stream : List Char) :
    Nat × List Char :=
  let written := fwrite ptr size nmemb room stream
  written

/-- `curl_easy_perform(curl)` with the options `downloadFile` sets: the bytes received go to the
open destination file through `writeData`; with `CURLOPT_NOPROGRESS` off the callback is run. -/
def curlEasyPerform (env : Env) (url path : String) (progress : Bool) (s : State) :
    Nat × State :=
  let t := env.transfer url
  let s := s.log (.curlEasyPerform url progress)
  let s := if progress then runProgress t.progress s else s
  (t.res, s.setFile path (writeData t.body 1 t.body.length t.room ((s.files path).getD [])).2)

/-- `void downloadFile(std::string url, std::string path)`. -/
def downloadFile (env : Env) (url path : String) (s : State) : Outcome Unit × State :=
  let s := s.log (.downloadFile url path)
  if !env.canWrite path then
    (.raised (.updater ("failed to open file " ++ path)), s)
  else
    let s := { (s.setFile path []).log (.fopen path) with openHandles := path :: s.openHandles }
    let s := s.log .curlEasyInit
    if !env.curlInit url then
      (.raised (.updater "failed to init curl"), s)
    else
      let (res, s) := curlEasyPerform env url path (path == "update/update.zip") s
      let s := s.log .curlEasyCleanup
      let s := { s.log (.fclose path) with openHandles := s.openHandles.erase path }
      if res ≠ CURLE_OK then
        (.raised (.updater ("failed to download file (error code " ++ toString res ++ ")")), s)
      else (.ok (), s)

/-! ## ArchiveExtractor: `copyData`, `extract` -/

/-- The bytes a `write` of `(buff, size)` hands over: the first `size` bytes of the buffer. -/
def DataBlock.written (b : DataBlock) : List Char := b.buff.take b.size

/-- Content of a file after `data` has been written at byte `offset`: bytes between the old end of
the file and `offset` read as zero. A negative offset or an empty write changes nothing. -/
def writeAt (file : List Char) (offset : Int) (data : List Char) : List Char :=
  if offset < 0 ∨ data = [] then file
  else
    let o := offset.toNat
    let padded := file ++ List.replicate (o - file.length) (Char.ofNat 0)
    padded.take o ++ data ++ padded.drop (o + data.length)

/-- Byte `p` of a file, zero beyond its end. -/
def readByte (file : List Char) (p : Nat) : Char := file.getD p (Char.ofNat 0)

/-- Effect of `archive_write_header(dst, entry)` on the disk: unless the call fails, the entry's
file exists and is empty (entries are taken to be regular files). -/
def archive_write_header (e : ArchiveEntry) (s : State) : Int × State :=
  let s := s.log (.writeHeader e.pathname)
  if e.writeHeaderResult < ARCHIVE_WARN then (e.writeHeaderResult, s)
  else (e.writeHeaderResult, s.setFile e.pathname [])

/-- Effect of `archive_write_data_block(dst, buff, size, offset)` on the disk, `dst` being
positioned on the file `pathname`: unless the call fails, the bytes are in the file at `offset`. -/
def archive_write_data_block (pathname : String) (b : DataBlock) (s : State) : Int × State :=
  let s := s.log (.writeDataBlock b.buff b.size b.offset)
  if b.writeResult < ARCHIVE_WARN then (b.writeResult, s)
  else (b.writeResult, s.setFile pathname (writeAt ((s.files pathname).getD []) b.offset b.written))

/-- `int copyData(archive* src, archive* dst)`: `src` is what is left of the data of the current
entry, `dst` is positioned on the file `pathname`. When the script is used up
`archive_read_data_block` returns `ARCHIVE_EOF`. -/
def copyData (pathname : String) : List DataBlock → State → Int × State
  | [], s => (ARCHIVE_OK, s.log .readDataBlock)
  | b :: rest, s =>
    let s := s.log .readDataBlock
    if b.readResult = ARCHIVE_EOF then (ARCHIVE_OK, s)
    else if b.readResult < ARCHIVE_WARN then (b.readResult, s)
    else
      let (result, s) := archive_write_data_block pathname b s
      if result < ARCHIVE_WARN then (result, s)
      else copyData pathname rest s

/-- What the four per-entry checks of `extract` throw:
`UpdaterException("unpack error: " + std::string(archive_error_string(src)))`. With a null
pointer the construction of the `std::string` throws `std::logic_error` before the
`UpdaterException` exists. -/
def unpackError (e : ArchiveEntry) : Failure :=
  match e.errorString with
  | some text => .updater ("unpack error: " ++ text)
  | none => .other

/-- The `while(true)` loop of `extract` over the entries still in the archive. When the script
is used up `archive_read_next_header` returns `ARCHIVE_EOF`. -/
def extractLoop : List ArchiveEntry → State → Outcome Unit × State
  | [], s => (.ok (), s.log .readNextHeader)
  | e :: rest, s =>
    let s := s.log .readNextHeader
    if e.nextHeaderResult = ARCHIVE_EOF then (.ok (), s)
    else if e.nextHeaderResult < ARCHIVE_WARN then (.raised (unpackError e), s)
    else
      let (result, s) := archive_write_header e s
      if result < ARCHIVE_WARN then (.raised (unpackError e), s)
      else
        let (result, s) := copyData e.pathname e.blocks s
        if result < ARCHIVE_WARN then (.raised (unpackError e), s)
        else
          let s := s.log .writeFinishEntry
          if e.finishResult < ARCHIVE_WARN then (.raised (unpackError e), s)
          else extractLoop rest s

/-- `void extract(std::string filename)`: `archive_read_open_filename` fails when the file cannot
be read or is not an archive. -/
def extract (env : Env) (filename : String) (s : State) : Outcome Unit × State :=
  let s := s.log (.extract filename)
  let s := s.log (.print "\rExtracting...                                    ")
  match (s.files filename).bind env.decode with
  | none => (.raised (.updater "failed to open archive"), s)
  | some entries => extractLoop entries s

/-! ## UpdatePipeline: `runUpdater` and what it calls -/

/-- The `versionURL` of `getLatestVersion`. -/
def versionURL : String := "https://raw.githubusercontent.com/TA-Remake/release/main/version"
/-- The `windowsReleaseURL` of `downloadUpdate`. -/
def windowsReleaseURL : String :=
  "https://raw.githubusercontent.com/TA-Remake/release/main/windows.zip"
/-- The `linuxURL` of `downloadUpdate`, declared there and not used. -/
def linuxURL : String := "https://raw.githubusercontent.com/TA-Remake/release/main/linux.zip"

/-- `std::string getLatestVersion()`. -/
def getLatestVersion (env : Env) (s : State) : Outcome String × State :=
  match downloadFile env versionURL "update/version" s with
  | (.raised e, s) => (.raised e, s)
  | (.ok (), s) => getVersionFromFile "update/version" s

/-- `void downloadUpdate()`. -/
def downloadUpdate (env : Env) (s : State) : Outcome Unit × State :=
  if env.win32 then downloadFile env windowsReleaseURL "update/update.zip" s
  else downloadFile env env.linuxReleaseURL "update/update.zip" s

/-- `void installUpdate()`. -/
def installUpdate (env : Env) (s : State) : Outcome Unit × State :=
  match downloadUpdate env s with
  | (.raised e, s) => (.raised e, s)
  | (.ok (), s) => extract env "update/update.zip" s

/-- `void runUpdater()`. -/
def runUpdater (env : Env) (s : State) : Outcome Unit × State :=
  let s := s.log (.print "Checking for updates...")
  let s := s.log (.createDirectory "update")
  if env.createDirectoryThrows then (.raised .other, s)
  else
    match getVersionFromFile "version" s with
    | (.raised e, s) => (.raised e, s)
    | (.ok currentVersion, s) =>
      match getLatestVersion env s with
      | (.raised e, s) => (.raised e, s)
      | (.ok latestVersion, s) =>
        if latestVersion ≠ currentVersion then
          let s := s.log
            (.print ("Newer version " ++ latestVersion ++ " is available, installing..."))
          match installUpdate env s with
          | (.raised e, s) => (.raised e, s)
          | (.ok (), s) =>
            (.ok (), s.log (.print "\rUpdate complete                                 "))
        else
          (.ok (), s.log (.print "You have the latest version of Tails Adventure Remake"))

/-- `int main(int argc, char* argv[])`, without the `system("pause")` of Windows. -/
def main (env : Env) (s : State) : Nat × State :=
  match runUpdater env s with
  | (.ok (), s) => (0, s)
  | (.raised (.updater error), s) =>
    (0, s.log (.print ("ERROR: " ++ error ++ String.mk (List.replicate 30 ' '))))
  | (.raised .other, s) =>
    (0, s.log (.print ("ERROR: unknown error" ++ String.mk (List.replicate 30 ' '))))

/-- The events of a trace that are a bundle download or an extraction call. -/
def isInstallCall : Event → Bool
  | .downloadFile _ path => path == "update/update.zip"
  | .extract _ => true
  | _ => false

/-- The events of a trace that are a call of `downloadFile` or of `extract`. -/
def isNetworkOrExtractCall : Event → Bool
  | .downloadFile _ _ => true
  | .curlEasyPerform _ _ => true
  | .extract _ => true
  | _ => false

/-- The token of C9 as the claim words it: the maximal run of characters that are not white
space at the start of the content. -/
def leadingRun (content : List Char) : String :=
  String.mk (content.takeWhile (fun c => !isspace c))

/-- The percentages of the progress lines of a trace, in the order they were printed. -/
def emittedPercents (trace : List Event) : List Int :=
  trace.filterMap (fun ev => match ev with
    | .progressLine percent => some percent
    | _ => none)

/-- The percentages printed for a sequence of computed percentages when the previous one
printed was `prev`. -/
def emitFrom (prev : Int) : List Int → List Int
  | [] => []
  | p :: ps => if p ≠ prev then p :: emitFrom p ps else emitFrom prev ps

/-- Byte `q` of the destination lies inside the bytes block `b` writes. -/
def DataBlock.covers (b : DataBlock) (q : Nat) : Prop :=
  0 ≤ b.offset ∧ b.offset.toNat ≤ q ∧ q < b.offset.toNat + b.written.length

/-- The library calls of a copy without failure, as C4 words them: one read and one write per
block, the write with the block's own buffer, size and offset, then the read that reports the
end of the data. -/
def copyTrace : List DataBlock → List Event
  | [] => [.readDataBlock]
  | b :: rest => .readDataBlock :: .writeDataBlock b.buff b.size b.offset :: copyTrace rest

/-- Two data blocks of a sparse entry: `ab` at offset 0 and `cd` at offset 5. -/
def sparseBlocks : List DataBlock :=
  [{ readResult := ARCHIVE_OK, buff := "ab".toList, size := 2, offset := 0,
     writeResult := ARCHIVE_OK },
   { readResult := ARCHIVE_OK, buff := "cd".toList, size := 2, offset := 5,
     writeResult := ARCHIVE_OK }]

/-- The content `copyData` leaves in the file of an entry when every block is copied:
the blocks written in order into the empty file. -/
def entryContent (e : ArchiveEntry) : List Char :=
  e.blocks.foldl (fun file b => writeAt file b.offset b.written) []

/-- The block is read (no end of data, no failure) and written (no failure). -/
def DataBlock.copied (b : DataBlock) : Prop :=
  b.readResult ≠ ARCHIVE_EOF ∧ ¬ b.readResult < ARCHIVE_WARN ∧ ¬ b.writeResult < ARCHIVE_WARN

instance (b : DataBlock) : Decidable b.copied :=
  inferInstanceAs (Decidable (b.readResult ≠ ARCHIVE_EOF ∧ ¬ b.readResult < ARCHIVE_WARN ∧
    ¬ b.writeResult < ARCHIVE_WARN))

/-- Every step of `extract` for the entry is carried out without failure: the header is read
(no end of archive) and written, every block is copied, the entry is finished. -/
def ArchiveEntry.extracted (e : ArchiveEntry) : Prop :=
  e.nextHeaderResult ≠ ARCHIVE_EOF ∧ ¬ e.nextHeaderResult < ARCHIVE_WARN ∧
  ¬ e.writeHeaderResult < ARCHIVE_WARN ∧ (∀ b ∈ e.blocks, b.copied) ∧
  ¬ e.finishResult < ARCHIVE_WARN

instance (e : ArchiveEntry) : Decidable e.extracted :=
  inferInstanceAs (Decidable (e.nextHeaderResult ≠ ARCHIVE_EOF ∧
    ¬ e.nextHeaderResult < ARCHIVE_WARN ∧ ¬ e.writeHeaderResult < ARCHIVE_WARN ∧
    (∀ b ∈ e.blocks, b.copied) ∧ ¬ e.finishResult < ARCHIVE_WARN))

/-- The `version` entry of a bundle for release `1.2`. -/
def versionEntry : ArchiveEntry :=
  { pathname := "version"
    nextHeaderResult := ARCHIVE_OK
    writeHeaderResult := ARCHIVE_OK
    blocks := [{ readResult := ARCHIVE_OK, buff := "1.2\n".toList, size := 4, offset := 0,
                 writeResult := ARCHIVE_OK }]
    finishResult := ARCHIVE_OK
    errorString := none }

/-- An entry of a bundle other than its `version` file. -/
def gameEntry : ArchiveEntry :=
  { pathname := "game.bin"
    nextHeaderResult := ARCHIVE_OK
    writeHeaderResult := ARCHIVE_OK
    blocks := sparseBlocks
    finishResult := ARCHIVE_OK
    errorString := none }

/-! ## Worlds used as concrete inputs -/

/-- Files of an install whose `version` file holds `1.0`. -/
def demoFiles : String → Option (List Char) :=
  fun p => if p = "version" then some "1.0\n".toList else none

/-- An environment in which every destination opens, libcurl initialises, and every transfer
ends with `res`, delivering the body `1.2`. -/
def demoEnv (res : Nat) (init : Bool) (writable : Bool) : Env :=
  { win32 := true
    linuxReleaseURL := linuxURL
    createDirectoryThrows := false
    canWrite := fun _ => writable
    curlInit := fun _ => init
    transfer := fun _ =>
      { res := res, body := "1.2\n".toList, room := 4, progress := [],
        stored := fun _ => Nat.le_refl _ }
    decode := fun _ => some [] }

/-- An environment whose version fetch delivers `1.2` and whose bundle transfer ends with the
result code 7 (`CURLE_COULDNT_CONNECT`). -/
def failingBundleEnv : Env :=
  { win32 := true
    linuxReleaseURL := linuxURL
    createDirectoryThrows := false
    canWrite := fun _ => true
    curlInit := fun _ => true
    transfer := fun u =>
      if u = versionURL then
        { res := 0, body := "1.2\n".toList, room := 4, progress := [],
          stored := fun _ => Nat.le_refl _ }
      else
        { res := 7, body := [], room := 0, progress := [(200, 0)],
          stored := fun _ => Nat.le_refl _ }
    decode := fun _ => none }

/-- An archive entry all of whose library calls return `ARCHIVE_WARN`. -/
def warnEntry : ArchiveEntry :=
  { pathname := "game.bin"
    nextHeaderResult := ARCHIVE_WARN
    writeHeaderResult := ARCHIVE_WARN
    blocks := [{ readResult := ARCHIVE_WARN, buff := "ab".toList, size := 2, offset := 0,
                 writeResult := ARCHIVE_WARN }]
    finishResult := ARCHIVE_WARN
    errorString := none }

/-- An archive entry whose header cannot be read: `archive_read_next_header` returns
`ARCHIVE_FATAL` and the source archive records the text of the error. -/
def fatalHeaderEntry : ArchiveEntry :=
  { pathname := "game.bin"
    nextHeaderResult := ARCHIVE_FATAL
    writeHeaderResult := ARCHIVE_OK
    blocks := []
    finishResult := ARCHIVE_OK
    errorString := some "Truncated input file" }

/-- Stand-in for the bytes of a downloaded bundle. -/
def bundleBytes : List Char := "PK-bundle".toList

/-- An environment whose version fetch delivers `1.2`, whose bundle fetch delivers
`bundleBytes` (reporting progress at 0, 100 and 200 of 200 bytes), and in which these bytes
decode to the given archive entries. -/
def archiveEnv (entries : List ArchiveEntry) : Env :=
  { win32 := true
    linuxReleaseURL := linuxURL
    createDirectoryThrows := false
    canWrite := fun _ => true
    curlInit := fun _ => true
    transfer := fun u =>
      if u = versionURL then
        { res := 0, body := "1.2\n".toList, room := 4, progress := [],
          stored := fun _ => Nat.le_refl _ }
      else
        { res := 0, body := bundleBytes, room := bundleBytes.length,
          progress := [(200, 0), (200, 100), (200, 200)], stored := fun _ => Nat.le_refl _ }
    decode := fun bytes => if bytes = bundleBytes then some entries else none }

/-! ## Helper facts about traces and files -/

theorem runProgress_files (l : List (Int × Int)) (t : State) :
    (runProgress l t).files = t.files := by
  induction l generalizing t with
  | nil => rfl
  | cons a l ih =>
    obtain ⟨x, y⟩ := a
    simp only [runProgress, ih, displayDownloadProgress]
    split <;> rfl

theorem runProgress_installCalls (l : List (Int × Int)) (t : State) :
    (runProgress l t).trace.filter isInstallCall = t.trace.filter isInstallCall := by
  induction l generalizing t with
  | nil => rfl
  | cons a l ih =>
    obtain ⟨x, y⟩ := a
    simp only [runProgress, ih, displayDownloadProgress]
    split
    · simp [State.log, isInstallCall]
    · rfl

theorem downloadFile_installCalls (env : Env) (url path : String) (s : State) :
    (downloadFile env url path s).2.trace.filter isInstallCall =
      s.trace.filter isInstallCall ++
        (if path = "update/update.zip" then [Event.downloadFile url path] else []) := by
  unfold downloadFile curlEasyPerform
  cases hw : env.canWrite path <;> cases hi : env.curlInit url <;>
    by_cases hr : (env.transfer url).res = CURLE_OK <;>
    by_cases hp : path = "update/update.zip" <;>
    simp [hr, hp, State.log, State.setFile, isInstallCall, runProgress_installCalls,
      List.filter_cons]

theorem getVersionFromFile_state (path : String) (s : State) :
    (getVersionFromFile path s).2 = s := by
  unfold getVersionFromFile
  cases s.files path <;> rfl

theorem getVersionFromFile_congr (path : String) (s t : State) (h : s.files = t.files) :
    (getVersionFromFile path s).1 = (getVersionFromFile path t).1 := by
  unfold getVersionFromFile
  rw [h]
  cases t.files path <;> rfl

theorem downloadFile_outcome_congr (env : Env) (url path : String) (s t : State) :
    (downloadFile env url path s).1 = (downloadFile env url path t).1 := by
  unfold downloadFile curlEasyPerform
  cases hw : env.canWrite path <;> cases hi : env.curlInit url <;>
    by_cases hr : (env.transfer url).res = CURLE_OK <;> simp [hr]

theorem fwrite_whole (body : List Char) (room : Nat) (stream : List Char)
    (h : body.length ≤ room) :
    (fwrite body 1 body.length room stream).2 = stream ++ body := by
  simp [fwrite, Nat.min_eq_left h]

theorem downloadFile_file (env : Env) (url path : String) (s : State)
    (h : (downloadFile env url path s).1 = .ok ()) :
    (downloadFile env url path s).2.files path = some (env.transfer url).body := by
  revert h
  unfold downloadFile curlEasyPerform
  cases hw : env.canWrite path <;> cases hi : env.curlInit url <;>
    by_cases hr : (env.transfer url).res = CURLE_OK <;>
    cases hp : (path == "update/update.zip") <;>
    first
    | simp [hr, State.log, State.setFile, writeData, runProgress_files,
        fwrite_whole _ _ _ ((env.transfer url).stored hr)]
    | simp [hr, State.log, State.setFile, writeData, runProgress_files]

theorem getLatestVersion_outcome_congr (env : Env) (s t : State) :
    (getLatestVersion env s).1 = (getLatestVersion env t).1 := by
  unfold getLatestVersion
  have hc := downloadFile_outcome_congr env versionURL "update/version" s t
  have hs := downloadFile_file env versionURL "update/version" s
  have ht := downloadFile_file env versionURL "update/version" t
  rcases hds : downloadFile env versionURL "update/version" s with ⟨os, s1⟩
  rcases hdt : downloadFile env versionURL "update/version" t with ⟨ot, t1⟩
  rw [hds] at hc hs
  rw [hdt] at hc ht
  simp only at hc hs ht
  subst hc
  cases os with
  | raised e => rfl
  | ok u =>
    cases u
    simp only [getVersionFromFile, hs rfl, ht rfl]

theorem getLatestVersion_installCalls (env : Env) (s : State) :
    (getLatestVersion env s).2.trace.filter isInstallCall = s.trace.filter isInstallCall := by
  unfold getLatestVersion
  have h := downloadFile_installCalls env versionURL "update/version" s
  rcases hds : downloadFile env versionURL "update/version" s with ⟨os, s1⟩
  rw [hds] at h
  have hne : ¬ ("update/version" : String) = "update/update.zip" := by decide
  simp only [hne, if_false, List.append_nil] at h
  cases os with
  | raised e => exact h
  | ok u =>
    cases u
    simp only [getVersionFromFile_state]
    exact h

theorem archive_write_header_result (e : ArchiveEntry) (s : State) :
    (archive_write_header e s).1 = e.writeHeaderResult := by
  unfold archive_write_header
  split <;> rfl

theorem archive_write_data_block_result (pathname : String) (b : DataBlock) (s : State) :
    (archive_write_data_block pathname b s).1 = b.writeResult := by
  unfold archive_write_data_block
  split <;> rfl

/-- The loop body of `copyData`, one `if` per `return`. -/
theorem copyData_cons (pathname : String) (b : DataBlock) (rest : List DataBlock) (s : State) :
    copyData pathname (b :: rest) s =
      if b.readResult = ARCHIVE_EOF then (ARCHIVE_OK, s.log .readDataBlock)
      else if b.readResult < ARCHIVE_WARN then (b.readResult, s.log .readDataBlock)
      else if b.writeResult < ARCHIVE_WARN then
        (b.writeResult, (archive_write_data_block pathname b (s.log .readDataBlock)).2)
      else copyData pathname rest (archive_write_data_block pathname b (s.log .readDataBlock)).2 := by
  have hr := archive_write_data_block_result pathname b (s.log .readDataBlock)
  rcases hw : archive_write_data_block pathname b (s.log .readDataBlock) with ⟨r, s1⟩
  rw [hw] at hr
  simp only at hr
  subst hr
  simp only [copyData, hw]

/-- The loop body of `extract`, one `if` per `break` or `throw`. -/
theorem extractLoop_cons (e : ArchiveEntry) (rest : List ArchiveEntry) (s : State) :
    extractLoop (e :: rest) s =
      if e.nextHeaderResult = ARCHIVE_EOF then (.ok (), s.log .readNextHeader)
      else if e.nextHeaderResult < ARCHIVE_WARN then
        (.raised (unpackError e), s.log .readNextHeader)
      else if e.writeHeaderResult < ARCHIVE_WARN then
        (.raised (unpackError e), (archive_write_header e (s.log .readNextHeader)).2)
      else if (copyData e.pathname e.blocks
          (archive_write_header e (s.log .readNextHeader)).2).1 < ARCHIVE_WARN then
        (.raised (unpackError e),
          (copyData e.pathname e.blocks (archive_write_header e (s.log .readNextHeader)).2).2)
      else if e.finishResult < ARCHIVE_WARN then
        (.raised (unpackError e),
          (copyData e.pathname e.blocks
            (archive_write_header e (s.log .readNextHeader)).2).2.log .writeFinishEntry)
      else
        extractLoop rest
          ((copyData e.pathname e.blocks
            (archive_write_header e (s.log .readNextHeader)).2).2.log .writeFinishEntry) := by
  have hr := archive_write_header_result e (s.log .readNextHeader)
  rcases hw : archive_write_header e (s.log .readNextHeader) with ⟨r, s1⟩
  rw [hw] at hr
  simp only at hr
  subst hr
  rcases hc : copyData e.pathname e.blocks s1 with ⟨r2, s2⟩
  simp only [extractLoop, hw, hc]

theorem archive_write_data_block_installCalls (pathname : String) (b : DataBlock) (s : State) :
    (archive_write_data_block pathname b s).2.trace.filter isInstallCall =
      s.trace.filter isInstallCall := by
  unfold archive_write_data_block
  split <;> simp [State.log, State.setFile, isInstallCall]

theorem archive_write_header_installCalls (e : ArchiveEntry) (s : State) :
    (archive_write_header e s).2.trace.filter isInstallCall =
      s.trace.filter isInstallCall := by
  unfold archive_write_header
  split <;> simp [State.log, State.setFile, isInstallCall]

theorem log_installCalls (s : State) (ev : Event) (h : isInstallCall ev = false) :
    (s.log ev).trace.filter isInstallCall = s.trace.filter isInstallCall := by
  simp [State.log, h]

theorem copyData_installCalls (pathname : String) (blocks : List DataBlock) (s : State) :
    (copyData pathname blocks s).2.trace.filter isInstallCall =
      s.trace.filter isInstallCall := by
  induction blocks generalizing s with
  | nil => simp [copyData, State.log, isInstallCall]
  | cons b rest ih =>
    rw [copyData_cons]
    split_ifs <;>
      simp only [ih, archive_write_data_block_installCalls,
        log_installCalls _ Event.readDataBlock rfl]

theorem extractLoop_installCalls (entries : List ArchiveEntry) (s : State) :
    (extractLoop entries s).2.trace.filter isInstallCall = s.trace.filter isInstallCall := by
  induction entries generalizing s with
  | nil => simp [extractLoop, State.log, isInstallCall]
  | cons e rest ih =>
    rw [extractLoop_cons]
    split_ifs <;>
      simp only [ih, copyData_installCalls, archive_write_header_installCalls,
        log_installCalls _ Event.readNextHeader rfl, log_installCalls _ Event.writeFinishEntry rfl]

theorem extract_installCalls (env : Env) (filename : String) (s : State) :
    (extract env filename s).2.trace.filter isInstallCall =
      s.trace.filter isInstallCall ++ [Event.extract filename] := by
  simp only [extract]
  split <;> simp [extractLoop_installCalls, State.log, isInstallCall]

theorem downloadUpdate_outcome_congr (env : Env) (s t : State) :
    (downloadUpdate env s).1 = (downloadUpdate env t).1 := by
  unfold downloadUpdate
  split <;> exact downloadFile_outcome_congr _ _ _ _ _

theorem installUpdate_installCalls (env : Env) (s : State) :
    (installUpdate env s).2.trace.filter isInstallCall =
      s.trace.filter isInstallCall ++
        (if (downloadUpdate env s).1 = .ok () then
          [Event.downloadFile (if env.win32 then windowsReleaseURL else env.linuxReleaseURL)
              "update/update.zip",
            Event.extract "update/update.zip"]
        else
          [Event.downloadFile (if env.win32 then windowsReleaseURL else env.linuxReleaseURL)
              "update/update.zip"]) := by
  have hd : (downloadUpdate env s).2.trace.filter isInstallCall =
      s.trace.filter isInstallCall ++
        [Event.downloadFile (if env.win32 then windowsReleaseURL else env.linuxReleaseURL)
          "update/update.zip"] := by
    unfold downloadUpdate
    split <;> simp [downloadFile_installCalls]
  unfold installUpdate
  rcases hdu : downloadUpdate env s with ⟨o, s1⟩
  rw [hdu] at hd
  cases o with
  | raised e => simpa using hd
  | ok u =>
    cases u
    simp only [extract_installCalls, if_true]
    simp only at hd
    rw [hd]
    simp

/-! ## Transport: outcomes of `downloadFile` -/

/-- C8: `downloadFile` returns normally exactly when the destination opens, libcurl initialises
and the transfer result is `CURLE_OK`; it throws "failed to open file" (DestinationUnwritable)
with nothing after the call in the trace (no initialisation, no transfer) when the destination
cannot be opened, "failed to init curl" (TransportInitFailed) when initialisation fails, and
"failed to download file (error code N)" (TransferFailed) with the result code `N` for every
result other than `CURLE_OK`. -/
theorem downloadFile_outcomes (env : Env) (url path : String) (s : State) :
    ((downloadFile env url path s).1 = .ok () ↔
      (env.canWrite path = true ∧ env.curlInit url = true ∧
        (env.transfer url).res = CURLE_OK)) ∧
    (env.canWrite path = false →
      (downloadFile env url path s).1 = .raised (.updater ("failed to open file " ++ path)) ∧
      (downloadFile env url path s).2.trace = s.trace ++ [.downloadFile url path]) ∧
    (env.canWrite path = true → env.curlInit url = false →
      (downloadFile env url path s).1 = .raised (.updater "failed to init curl")) ∧
    (env.canWrite path = true → env.curlInit url = true →
      (env.transfer url).res ≠ CURLE_OK →
      (downloadFile env url path s).1 = .raised (.updater
        ("failed to download file (error code " ++ toString (env.transfer url).res ++ ")"))) := by
  refine ⟨?_, ?_, ?_, ?_⟩
  · unfold downloadFile curlEasyPerform
    cases hw : env.canWrite path <;> cases hi : env.curlInit url <;>
      by_cases hr : (env.transfer url).res = CURLE_OK <;> simp [hr]
  · intro hw
    simp [downloadFile, hw, State.log]
  · intro hw hi
    simp [downloadFile, hw, hi]
  · intro hw hi hr
    simp [downloadFile, curlEasyPerform, hw, hi, hr]

/-- Instance of C8: with an unwritable destination, with a failing initialisation and with the
transfer result 7, at the destination `update/version`. -/
theorem downloadFile_outcomes_witness :
    ((downloadFile (demoEnv 7 true false) versionURL "update/version"
        (State.start demoFiles)).1
      = .raised (.updater ("failed to open file " ++ "update/version")) ∧
     (downloadFile (demoEnv 7 true false) versionURL "update/version"
        (State.start demoFiles)).2.trace
      = (State.start demoFiles).trace ++ [.downloadFile versionURL "update/version"]) ∧
    (downloadFile (demoEnv 7 false true) versionURL "update/version"
        (State.start demoFiles)).1
      = .raised (.updater "failed to init curl") ∧
    (downloadFile (demoEnv 7 true true) versionURL "update/version"
        (State.start demoFiles)).1
      = .raised (.updater ("failed to download file (error code " ++
          toString ((demoEnv 7 true true).transfer versionURL).res ++ ")")) :=
  ⟨(downloadFile_outcomes (demoEnv 7 true false) versionURL "update/version"
      (State.start demoFiles)).2.1 rfl,
   (downloadFile_outcomes (demoEnv 7 false true) versionURL "update/version"
      (State.start demoFiles)).2.2.1 rfl rfl,
   (downloadFile_outcomes (demoEnv 7 true true) versionURL "update/version"
      (State.start demoFiles)).2.2.2 rfl rfl (by decide)⟩

/-- C6, the two outcomes that do close the handle: after a transfer (whatever its result code)
`fclose(file)` has been called and the handle opened by this call is no longer open. -/
theorem downloadFile_closes_after_transfer (env : Env) (url path : String) (s : State)
    (hw : env.canWrite path = true) (hi : env.curlInit url = true) :
    (downloadFile env url path s).2.openHandles = s.openHandles ∧
    Event.fclose path ∈ (downloadFile env url path s).2.trace := by
  have hrun : ∀ (l : List (Int × Int)) (t : State),
      (runProgress l t).openHandles = t.openHandles := by
    intro l
    induction l with
    | nil => intro t; rfl
    | cons a l ih =>
      intro t
      obtain ⟨x, y⟩ := a
      simp only [runProgress, ih, displayDownloadProgress]
      split <;> rfl
  unfold downloadFile curlEasyPerform
  by_cases hr : (env.transfer url).res = CURLE_OK <;>
    cases hp : (path == "update/update.zip") <;>
    simp [hw, hi, hr, State.log, State.setFile, hrun]

/-- Instance for a transfer that fails with code 7: the handle is closed all the same. -/
theorem downloadFile_closes_after_transfer_witness :
    (downloadFile (demoEnv 7 true true) versionURL "update/version"
        (State.start demoFiles)).2.openHandles = (State.start demoFiles).openHandles ∧
    Event.fclose "update/version" ∈
      (downloadFile (demoEnv 7 true true) versionURL "update/version"
        (State.start demoFiles)).2.trace :=
  downloadFile_closes_after_transfer (demoEnv 7 true true) versionURL "update/version"
    (State.start demoFiles) rfl rfl

/-- C6 at the failing outcome: when `curl_easy_init` returns null after the destination has been
opened, `downloadFile` throws "failed to init curl" with the destination handle still open and
no `fclose` in the trace. -/
theorem downloadFile_init_failure_leaves_handle_open (env : Env) (url path : String)
    (s : State) (hw : env.canWrite path = true) (hi : env.curlInit url = false) :
    (downloadFile env url path s).1 = .raised (.updater "failed to init curl") ∧
    (downloadFile env url path s).2.openHandles = path :: s.openHandles ∧
    (downloadFile env url path s).2.trace =
      s.trace ++ [.downloadFile url path, .fopen path, .curlEasyInit] := by
  simp [downloadFile, hw, hi, State.log, State.setFile]

/-- Instance of C6's failing outcome on the version fetch of a fresh process: the handle of
`update/version` is the one left open. -/
theorem downloadFile_init_failure_leaves_handle_open_witness :
    (downloadFile (demoEnv 0 false true) versionURL "update/version"
        (State.start demoFiles)).1 = .raised (.updater "failed to init curl") ∧
    (downloadFile (demoEnv 0 false true) versionURL "update/version"
        (State.start demoFiles)).2.openHandles
      = "update/version" :: (State.start demoFiles).openHandles ∧
    (downloadFile (demoEnv 0 false true) versionURL "update/version"
        (State.start demoFiles)).2.trace
      = (State.start demoFiles).trace ++
        [.downloadFile versionURL "update/version", .fopen "update/version", .curlEasyInit] :=
  downloadFile_init_failure_leaves_handle_open (demoEnv 0 false true) versionURL
    "update/version" (State.start demoFiles) rfl rfl

/-! ## UpdatePipeline: the branches of `runUpdater` -/

/-- C7: when the local version file cannot be opened, `getVersionFromFile` throws
"failed to open file <path>" (FileUnreadable); `runUpdater` then makes no call beyond the first
output line and the directory bootstrap (so no `downloadFile`, no transfer, no `extract`), and,
the bootstrap having returned, it throws that same failure. -/
theorem runUpdater_unreadable_version (env : Env) (s : State)
    (hfile : s.files "version" = none) :
    (∀ (path : String) (t : State), t.files path = none →
      getVersionFromFile path t =
        (.raised (.updater ("failed to open file " ++ path)), t)) ∧
    (runUpdater env s).2.trace =
      s.trace ++ [.print "Checking for updates...", .createDirectory "update"] ∧
    (∀ ev ∈ (runUpdater env s).2.trace, ev ∈ s.trace ∨ isNetworkOrExtractCall ev = false) ∧
    (env.createDirectoryThrows = false →
      (runUpdater env s).1 = .raised (.updater ("failed to open file " ++ "version"))) := by
  have htrace : (runUpdater env s).2.trace =
      s.trace ++ [.print "Checking for updates...", .createDirectory "update"] := by
    unfold runUpdater
    cases hd : env.createDirectoryThrows <;>
      simp [getVersionFromFile, State.log, hfile]
  refine ⟨?_, htrace, ?_, ?_⟩
  · intro path t ht
    simp [getVersionFromFile, ht]
  · intro ev hev
    rw [htrace] at hev
    rcases List.mem_append.1 hev with h | h
    · exact Or.inl h
    · right
      simp only [List.mem_cons, List.mem_singleton, List.not_mem_nil, or_false] at h
      rcases h with h | h <;> subst h <;> rfl
  · intro hd
    unfold runUpdater
    simp [getVersionFromFile, State.log, hfile, hd]

/-- Instance of C7: a fresh process in a directory with no file at all. -/
theorem runUpdater_unreadable_version_witness :
    (∀ (path : String) (t : State), t.files path = none →
      getVersionFromFile path t =
        (.raised (.updater ("failed to open file " ++ path)), t)) ∧
    (runUpdater (demoEnv 0 true true) (State.start (fun _ => none))).2.trace =
      (State.start (fun _ => none)).trace ++
        [.print "Checking for updates...", .createDirectory "update"] ∧
    (∀ ev ∈ (runUpdater (demoEnv 0 true true) (State.start (fun _ => none))).2.trace,
      ev ∈ (State.start (fun _ => none)).trace ∨ isNetworkOrExtractCall ev = false) ∧
    ((demoEnv 0 true true).createDirectoryThrows = false →
      (runUpdater (demoEnv 0 true true) (State.start (fun _ => none))).1 =
        .raised (.updater ("failed to open file " ++ "version"))) :=
  runUpdater_unreadable_version (demoEnv 0 true true) (State.start (fun _ => none)) rfl

/-- What `runUpdater` does once the directory bootstrap has returned and both tokens are read:
`s1` is the state at the comparison. -/
theorem runUpdater_after_tokens (env : Env) (s : State) (a b : String)
    (hdir : env.createDirectoryThrows = false)
    (hlocal : (getVersionFromFile "version" s).1 = .ok a)
    (hremote : (getLatestVersion env s).1 = .ok b) :
    ∃ s1 : State,
      s1.trace.filter isInstallCall = s.trace.filter isInstallCall ∧
      runUpdater env s =
        if b ≠ a then
          match installUpdate env
            (s1.log (.print ("Newer version " ++ b ++ " is available, installing..."))) with
          | (.raised e, s2) => (.raised e, s2)
          | (.ok (), s2) =>
            (.ok (), s2.log (.print "\rUpdate complete                                 "))
        else
          (.ok (), s1.log (.print "You have the latest version of Tails Adventure Remake")) := by
  have hl : getVersionFromFile "version"
      ((s.log (.print "Checking for updates...")).log (.createDirectory "update")) =
      (.ok a, (s.log (.print "Checking for updates...")).log (.createDirectory "update")) := by
    have h1 := getVersionFromFile_congr "version"
      ((s.log (.print "Checking for updates...")).log (.createDirectory "update")) s rfl
    have h2 := getVersionFromFile_state "version"
      ((s.log (.print "Checking for updates...")).log (.createDirectory "update"))
    rw [hlocal] at h1
    exact Prod.ext h1 h2
  have hr := getLatestVersion_outcome_congr env
    ((s.log (.print "Checking for updates...")).log (.createDirectory "update")) s
  have hc := getLatestVersion_installCalls env
    ((s.log (.print "Checking for updates...")).log (.createDirectory "update"))
  rw [hremote] at hr
  rcases hg : getLatestVersion env
    ((s.log (.print "Checking for updates...")).log (.createDirectory "update")) with ⟨o, s1⟩
  rw [hg] at hr hc
  simp only at hr hc
  subst hr
  refine ⟨s1, ?_, ?_⟩
  · rw [hc]
    simp [State.log, isInstallCall]
  · unfold runUpdater
    simp only [hdir, hl, hg]
    rfl

/-- C1: when the token read from the local `version` file and the token `getLatestVersion`
returns are equal (the directory bootstrap having returned, as it must for the tokens to be
read), `runUpdater` returns normally, its last output is the up-to-date message, and the run adds
no bundle download and no call of `extract` to the trace. The outcome of the two reads does not
depend on the trace, so it is stated at the state the run starts from. -/
theorem runUpdater_equal_tokens (env : Env) (s : State) (t : String)
    (hdir : env.createDirectoryThrows = false)
    (hlocal : (getVersionFromFile "version" s).1 = .ok t)
    (hremote : (getLatestVersion env s).1 = .ok t) :
    (runUpdater env s).1 = .ok () ∧
    (runUpdater env s).2.trace.getLast? =
      some (.print "You have the latest version of Tails Adventure Remake") ∧
    (runUpdater env s).2.trace.filter isInstallCall = s.trace.filter isInstallCall := by
  obtain ⟨s1, hc, hrun⟩ := runUpdater_after_tokens env s t t hdir hlocal hremote
  rw [hrun]
  simp [State.log, isInstallCall, hc]

/-- Instance of C1: the local file and the remote file both hold `1.2`. -/
theorem runUpdater_equal_tokens_witness :
    (runUpdater (demoEnv 0 true true)
      (State.start (fun p => if p = "version" then some "1.2".toList else none))).1 = .ok () ∧
    (runUpdater (demoEnv 0 true true)
      (State.start (fun p => if p = "version" then some "1.2".toList else none))).2.trace.getLast?
      = some (.print "You have the latest version of Tails Adventure Remake") ∧
    (runUpdater (demoEnv 0 true true)
      (State.start (fun p => if p = "version" then some "1.2".toList else none))).2.trace.filter
        isInstallCall
      = (State.start (fun p => if p = "version" then some "1.2".toList else none)).trace.filter
        isInstallCall :=
  runUpdater_equal_tokens (demoEnv 0 true true)
    (State.start (fun p => if p = "version" then some "1.2".toList else none)) "1.2"
    rfl (by decide) (by decide)

/-- C2 as stated fails: with local token `1.0`, remote token `1.2` and a bundle transfer that
ends with result code 7, the run makes its one bundle download and no call of `extract`. -/
theorem runUpdater_unequal_tokens_no_extract :
    (getVersionFromFile "version" (State.start demoFiles)).1 = .ok "1.0" ∧
    (getLatestVersion failingBundleEnv (State.start demoFiles)).1 = .ok "1.2" ∧
    (runUpdater failingBundleEnv (State.start demoFiles)).2.trace.filter isInstallCall =
      [.downloadFile windowsReleaseURL "update/update.zip"] ∧
    Event.extract "update/update.zip" ∉
      (runUpdater failingBundleEnv (State.start demoFiles)).2.trace := by
  decide

/-- C2, amended: for unequal tokens `runUpdater` makes exactly one bundle download; when that
download returns normally it is followed by exactly one call of `extract` on
`update/update.zip`, when it throws no extraction call is made; the run adds no other bundle
download or extraction call. -/
theorem runUpdater_unequal_tokens (env : Env) (s : State) (a b : String)
    (hdir : env.createDirectoryThrows = false)
    (hlocal : (getVersionFromFile "version" s).1 = .ok a)
    (hremote : (getLatestVersion env s).1 = .ok b)
    (hne : b ≠ a) :
    (runUpdater env s).2.trace.filter isInstallCall =
      s.trace.filter isInstallCall ++
        (if (downloadUpdate env s).1 = .ok () then
          [Event.downloadFile (if env.win32 then windowsReleaseURL else env.linuxReleaseURL)
              "update/update.zip",
            Event.extract "update/update.zip"]
        else
          [Event.downloadFile (if env.win32 then windowsReleaseURL else env.linuxReleaseURL)
              "update/update.zip"]) := by
  obtain ⟨s1, hc, hrun⟩ := runUpdater_after_tokens env s a b hdir hlocal hremote
  rw [hrun, if_pos hne]
  have hi := installUpdate_installCalls env
    (s1.log (.print ("Newer version " ++ b ++ " is available, installing...")))
  rw [downloadUpdate_outcome_congr env _ s] at hi
  have hlog : (s1.log (.print ("Newer version " ++ b ++
      " is available, installing..."))).trace.filter isInstallCall =
      s.trace.filter isInstallCall := by
    rw [← hc]
    simp [State.log, isInstallCall]
  rw [hlog] at hi
  rcases hiu : installUpdate env
    (s1.log (.print ("Newer version " ++ b ++ " is available, installing..."))) with ⟨o, s2⟩
  rw [hiu] at hi
  cases o with
  | raised e => exact hi
  | ok u =>
    cases u
    simp only at hi ⊢
    rw [← hi]
    simp [State.log, isInstallCall]

/-- Instance of the amended C2 where the bundle transfer succeeds: local `1.0`, remote `1.2`. -/
theorem runUpdater_unequal_tokens_witness :
    (runUpdater (archiveEnv [gameEntry]) (State.start demoFiles)).2.trace.filter isInstallCall =
      (State.start demoFiles).trace.filter isInstallCall ++
        (if (downloadUpdate (archiveEnv [gameEntry]) (State.start demoFiles)).1 = .ok () then
          [Event.downloadFile
              (if (archiveEnv [gameEntry]).win32 then windowsReleaseURL
                else (archiveEnv [gameEntry]).linuxReleaseURL)
              "update/update.zip",
            Event.extract "update/update.zip"]
        else
          [Event.downloadFile
              (if (archiveEnv [gameEntry]).win32 then windowsReleaseURL
                else (archiveEnv [gameEntry]).linuxReleaseURL)
              "update/update.zip"]) :=
  runUpdater_unequal_tokens (archiveEnv [gameEntry]) (State.start demoFiles) "1.0" "1.2"
    rfl (by decide) (by decide) (by decide)

/-! ## VersionStore: the token `getVersionFromFile` returns -/

theorem dropWhile_isspace_append (ws l : List Char) (hws : ∀ c ∈ ws, isspace c = true) :
    (ws ++ l).dropWhile isspace = l.dropWhile isspace := by
  induction ws with
  | nil => rfl
  | cons c ws ih =>
    have hc : isspace c = true := hws c (List.mem_cons_self _ _)
    simp only [List.cons_append, List.dropWhile_cons, hc, if_true]
    exact ih (fun x hx => hws x (List.mem_cons_of_mem _ hx))

theorem takeWhile_token_append (tok rest : List Char) (htok : ∀ c ∈ tok, isspace c = false)
    (hrest : ∀ c, rest.head? = some c → isspace c = true) :
    (tok ++ rest).takeWhile (fun x => !isspace x) = tok := by
  induction tok with
  | nil =>
    cases rest with
    | nil => rfl
    | cons c r =>
      have hc : isspace c = true := hrest c rfl
      simp [List.takeWhile_cons, hc]
  | cons c tok ih =>
    have hc : isspace c = false := htok c (List.mem_cons_self _ _)
    simp only [List.cons_append, List.takeWhile_cons, hc, Bool.not_false, if_true]
    rw [ih (fun x hx => htok x (List.mem_cons_of_mem _ hx))]

/-- C9 as stated fails: for the content ` 1.2` (one leading space) `getVersionFromFile` returns
`1.2`, while the maximal run of characters other than white space at the start of the file is
empty. -/
theorem getVersionFromFile_skips_leading_space :
    (getVersionFromFile "version" (State.start (fun _ => some " 1.2".toList))).1 = .ok "1.2" ∧
    leadingRun " 1.2".toList = "" ∧
    (getVersionFromFile "version" (State.start (fun _ => some " 1.2".toList))).1 ≠
      .ok (leadingRun " 1.2".toList) := by
  decide

/-- C9, amended: for a file that can be opened, whose content is white space `ws`, then a run
`tok` of characters other than white space, then `rest` (empty or starting with white space;
empty when `tok` is), `getVersionFromFile` returns `tok` and leaves the state as it was: leading
white space is skipped, everything after the token is ignored. For an empty file it returns the
empty token without a failure. -/
theorem getVersionFromFile_token (path : String) (s : State) (ws tok rest : List Char)
    (hfile : s.files path = some (ws ++ tok ++ rest))
    (hws : ∀ c ∈ ws, isspace c = true)
    (htok : ∀ c ∈ tok, isspace c = false)
    (hrest : ∀ c, rest.head? = some c → isspace c = true)
    (hmax : tok = [] → rest = []) :
    getVersionFromFile path s = (.ok (String.mk tok), s) ∧
    (∀ t : State, t.files path = some [] → getVersionFromFile path t = (.ok "", t)) := by
  constructor
  · simp only [getVersionFromFile, hfile, streamExtract, List.append_assoc]
    rw [dropWhile_isspace_append ws (tok ++ rest) hws]
    cases tok with
    | nil =>
      rw [hmax rfl]
      rfl
    | cons c tk =>
      have hc : isspace c = false := htok c (List.mem_cons_self _ _)
      simp only [List.cons_append, List.dropWhile_cons, hc]
      have h := takeWhile_token_append (c :: tk) rest htok hrest
      simp only [List.cons_append] at h
      simp [h]
  · intro t ht
    simp [getVersionFromFile, ht, streamExtract]

/-- Instance of the amended C9: the content is a newline, `1.2`, a newline and more text. -/
theorem getVersionFromFile_token_witness :
    getVersionFromFile "version"
        (State.start (fun _ => some ("\n".toList ++ "1.2".toList ++ "\nnotes".toList))) =
      (.ok (String.mk "1.2".toList),
        State.start (fun _ => some ("\n".toList ++ "1.2".toList ++ "\nnotes".toList))) ∧
    (∀ t : State, t.files "version" = some [] →
      getVersionFromFile "version" t = (.ok "", t)) :=
  getVersionFromFile_token "version"
    (State.start (fun _ => some ("\n".toList ++ "1.2".toList ++ "\nnotes".toList)))
    "\n".toList "1.2".toList "\nnotes".toList rfl (by decide) (by decide) (by decide)
    (by decide)

/-! ## Transport: the progress lines -/

theorem runProgress_emitted (l : List (Int × Int)) (s : State) :
    emittedPercents (runProgress l s).trace =
      emittedPercents s.trace ++
        emitFrom s.prevPercent (l.map (fun x => percentOf x.1 x.2)) := by
  induction l generalizing s with
  | nil => simp [runProgress, emitFrom]
  | cons a l ih =>
    obtain ⟨total, now⟩ := a
    simp only [runProgress, ih, displayDownloadProgress, List.map_cons, emitFrom]
    by_cases h : percentOf total now = s.prevPercent
    · simp [h]
    · simp [h, State.log, emittedPercents]

theorem emitFrom_chain (prev : Int) (ps : List Int) :
    List.Chain (fun a b => a ≠ b) prev (emitFrom prev ps) := by
  induction ps generalizing prev with
  | nil => exact List.Chain.nil
  | cons p ps ih =>
    simp only [emitFrom]
    split
    · rename_i h
      exact List.Chain.cons (fun hEq => h hEq.symm) (ih p)
    · exact ih prev

theorem emitFrom_length (prev : Int) (ps : List Int) (hsorted : ps.Sorted (fun a b => a ≤ b))
    (hprev : ∀ p ∈ ps, prev ≤ p) :
    (emitFrom prev ps).length = (ps.toFinset.erase prev).card := by
  induction ps generalizing prev with
  | nil => simp [emitFrom]
  | cons p ps ih =>
    have hs := List.sorted_cons.1 hsorted
    have hle : prev ≤ p := hprev p (List.mem_cons_self _ _)
    simp only [emitFrom]
    by_cases h : p = prev
    · subst h
      simp only [ne_eq, not_true_eq_false, if_false, List.toFinset_cons,
        Finset.erase_insert_eq_erase]
      exact ih p hs.2 (fun q hq => hs.1 q hq)
    · simp only [ne_eq, h, not_false_eq_true, if_true, List.length_cons, List.toFinset_cons]
      rw [ih p hs.2 (fun q hq => hs.1 q hq)]
      have hlt : prev < p := lt_of_le_of_ne hle (fun hEq => h hEq.symm)
      have hnot : prev ∉ insert p ps.toFinset := by
        intro hmem
        rcases Finset.mem_insert.1 hmem with h1 | h1
        · exact h h1.symm
        · have := hs.1 prev (List.mem_toFinset.1 h1)
          omega
      rw [Finset.erase_eq_of_not_mem hnot]
      by_cases hp : p ∈ ps.toFinset
      · rw [Finset.insert_eq_of_mem hp, Finset.card_erase_add_one hp]
      · rw [Finset.erase_eq_of_not_mem hp, Finset.card_insert_of_not_mem hp]

theorem percentOf_eq_floor (T d : Int) (hT : 0 < T) (hbound : 100 * T < 2 ^ 63)
    (h0 : 0 ≤ d) (hd : d ≤ T) : percentOf T d = 100 * d / T := by
  have hT0 : T ≠ 0 := by omega
  have hwrap : wrapLongLong (100 * d) = 100 * d := by
    unfold wrapLongLong
    omega
  have hq0 : 0 ≤ 100 * d / T := Int.ediv_nonneg (by omega) (by omega)
  have hq100 : 100 * d / T ≤ 100 := by
    have h1 : 100 * d / T ≤ 100 * T / T := Int.ediv_le_ediv hT (by omega)
    rwa [Int.mul_ediv_cancel _ hT0] at h1
  unfold percentOf
  rw [if_pos hT0, hwrap, Int.tdiv_eq_ediv (by omega) (by omega)]
  unfold toInt32
  omega

/-- C5 as stated fails for totals so large that `100 * nowDownloaded` leaves the range of
`long long` (wrapping arithmetic): with `T = 2^62` and the downloaded values `0` and `2^57`
one line is printed (`0`), while `floor(100*d/T)` takes the two values `0` and `3`. -/
theorem progress_lines_overflow :
    (0 : Int) < 4611686018427387904 ∧
    List.Sorted (fun a b => a ≤ b) [(0 : Int), 144115188075855872] ∧
    (∀ d ∈ [(0 : Int), 144115188075855872], 0 ≤ d ∧ d ≤ 4611686018427387904) ∧
    emittedPercents (runProgress
      ([(0 : Int), 144115188075855872].map (fun d => ((4611686018427387904 : Int), d)))
      (State.start (fun _ => none))).trace = [0] ∧
    ([(0 : Int), 144115188075855872].map
      (fun d => 100 * d / 4611686018427387904)).dedup.length = 2 := by
  decide

/-- C5, amended: for a total `T > 0` with `100 * T` within the range of `long long`
(`100 * T < 2^63`) and a non-decreasing sequence of downloaded values between `0` and `T`,
handed to `displayDownloadProgress` from its initial state (`prevPercent = -1`), the number of
progress lines printed is the number of distinct values `floor(100*d/T)` of the sequence, and
no two lines printed one after the other carry the same percentage. -/
theorem progress_lines_distinct (T : Int) (ds : List Int) (files : String → Option (List Char))
    (hT : 0 < T) (hbound : 100 * T < 2 ^ 63)
    (hsorted : ds.Sorted (fun a b => a ≤ b))
    (hrange : ∀ d ∈ ds, 0 ≤ d ∧ d ≤ T) :
    (emittedPercents
      (runProgress (ds.map (fun d => (T, d))) (State.start files)).trace).length =
      (ds.map (fun d => 100 * d / T)).dedup.length ∧
    List.Chain' (fun a b => a ≠ b)
      (emittedPercents (runProgress (ds.map (fun d => (T, d))) (State.start files)).trace) := by
  have hmap : (ds.map (fun d => (T, d))).map (fun x => percentOf x.1 x.2) =
      ds.map (fun d => 100 * d / T) := by
    rw [List.map_map]
    apply List.map_congr_left
    intro d hd
    exact percentOf_eq_floor T d hT hbound (hrange d hd).1 (hrange d hd).2
  have hem := runProgress_emitted (ds.map (fun d => (T, d))) (State.start files)
  rw [hmap] at hem
  have hstart : emittedPercents (State.start files).trace = [] := rfl
  have hprev : (State.start files).prevPercent = -1 := rfl
  rw [hstart, hprev, List.nil_append] at hem
  rw [hem]
  have hps : (ds.map (fun d => 100 * d / T)).Sorted (fun a b => a ≤ b) := by
    apply List.Pairwise.map _ _ hsorted
    intro a b hab
    exact Int.ediv_le_ediv hT (by omega)
  have hnonneg : ∀ p ∈ ds.map (fun d => 100 * d / T), (-1 : Int) ≤ p := by
    intro p hp
    obtain ⟨d, hd, rfl⟩ := List.mem_map.1 hp
    have : 0 ≤ 100 * d / T := Int.ediv_nonneg (by have := (hrange d hd).1; omega) (by omega)
    omega
  constructor
  · rw [emitFrom_length (-1) _ hps hnonneg, ← List.card_toFinset]
    congr 1
    apply Finset.erase_eq_of_not_mem
    intro hmem
    obtain ⟨d, hd, hEq⟩ := List.mem_map.1 (List.mem_toFinset.1 hmem)
    have : 0 ≤ 100 * d / T := Int.ediv_nonneg (by have := (hrange d hd).1; omega) (by omega)
    omega
  · have hc : List.Chain' (fun a b => a ≠ b)
        ((-1 : Int) :: emitFrom (-1) (ds.map (fun d => 100 * d / T))) := emitFrom_chain (-1) _
    exact hc.tail

/-- Instance of the amended C5: a transfer of 200 bytes reported at 0, 1, 2, 100 and 200 bytes
(percentages 0, 0, 1, 50, 100). -/
theorem progress_lines_distinct_witness :
    (emittedPercents
      (runProgress ([0, 1, 2, 100, 200].map (fun d => ((200 : Int), d)))
        (State.start demoFiles)).trace).length =
      ([0, 1, 2, 100, 200].map (fun d => 100 * d / (200 : Int))).dedup.length ∧
    List.Chain' (fun a b => a ≠ b)
      (emittedPercents (runProgress ([0, 1, 2, 100, 200].map (fun d => ((200 : Int), d)))
        (State.start demoFiles)).trace) :=
  progress_lines_distinct 200 [0, 1, 2, 100, 200] demoFiles (by decide) (by decide)
    (by decide) (by decide)

/-! ## ArchiveExtractor: what `copyData` writes -/

theorem padded_getElem (f : List Char) (n q : Nat) :
    ((f ++ List.replicate n (Char.ofNat 0))[q]?).getD (Char.ofNat 0) =
      (f[q]?).getD (Char.ofNat 0) := by
  by_cases h : q < f.length
  · rw [List.getElem?_append_left h]
  · rw [List.getElem?_append_right (by omega), List.getElem?_replicate]
    rw [List.getElem?_eq_none (by omega)]
    split <;> rfl

theorem readByte_writeAt (f : List Char) (o : Int) (d : List Char) (q : Nat) :
    readByte (writeAt f o d) q =
      if 0 ≤ o ∧ o.toNat ≤ q ∧ q < o.toNat + d.length then readByte d (q - o.toNat)
      else readByte f q := by
  unfold writeAt readByte
  simp only [List.getD_eq_getElem?_getD]
  by_cases h0 : o < 0
  · have : ¬ (0 ≤ o) := by omega
    simp [h0, this]
  · by_cases hd : d = []
    · subst hd
      have hn : ¬ (0 ≤ o ∧ o.toNat ≤ q ∧ q < o.toNat + ([] : List Char).length) := by
        simp only [List.length_nil]
        omega
      simp only [or_true, if_true, if_neg hn]
    · have hpos : 0 ≤ o := by omega
      simp only [h0, hd, or_self, if_false, hpos, true_and]
      have hlen : (List.take o.toNat
          (f ++ List.replicate (o.toNat - f.length) (Char.ofNat 0))).length = o.toNat := by
        simp
        omega
      by_cases h1 : q < o.toNat
      · have : ¬ (o.toNat ≤ q ∧ q < o.toNat + d.length) := by omega
        rw [if_neg this, List.append_assoc, List.getElem?_append_left (by omega),
          List.getElem?_take_of_lt h1, padded_getElem]
      · by_cases h2 : q < o.toNat + d.length
        · have : (o.toNat ≤ q ∧ q < o.toNat + d.length) := by omega
          rw [if_pos this, List.append_assoc, List.getElem?_append_right (by omega),
            List.getElem?_append_left (by omega), hlen]
        · have : ¬ (o.toNat ≤ q ∧ q < o.toNat + d.length) := by omega
          rw [if_neg this, List.getElem?_append_right (by simp; omega), List.getElem?_drop]
          simp only [List.length_append, hlen]
          have : o.toNat + d.length + (q - (o.toNat + d.length)) = q := by omega
          rw [this, padded_getElem]

theorem readByte_foldl_uncovered (blocks : List DataBlock) (f : List Char) (q : Nat)
    (h : ∀ b ∈ blocks, ¬ b.covers q) :
    readByte (blocks.foldl (fun file b => writeAt file b.offset b.written) f) q =
      readByte f q := by
  induction blocks generalizing f with
  | nil => rfl
  | cons b rest ih =>
    rw [List.foldl_cons, ih _ (fun x hx => h x (List.mem_cons_of_mem _ hx)), readByte_writeAt]
    have hb : ¬ b.covers q := h b (List.mem_cons_self _ _)
    unfold DataBlock.covers at hb
    rw [if_neg hb]

theorem readByte_foldl_covered (pre post : List DataBlock) (b : DataBlock) (f : List Char)
    (q : Nat) (hb : b.covers q) (h : ∀ x ∈ post, ¬ x.covers q) :
    readByte ((pre ++ b :: post).foldl (fun file b => writeAt file b.offset b.written) f) q =
      readByte b.written (q - b.offset.toNat) := by
  rw [List.foldl_append, List.foldl_cons, readByte_foldl_uncovered post _ q h, readByte_writeAt]
  unfold DataBlock.covers at hb
  rw [if_pos hb]

theorem copyData_without_failure (pathname : String) (blocks : List DataBlock) (s : State)
    (hok : ∀ b ∈ blocks, b.readResult ≠ ARCHIVE_EOF ∧ ¬ b.readResult < ARCHIVE_WARN ∧
      ¬ b.writeResult < ARCHIVE_WARN) :
    (copyData pathname blocks s).1 = ARCHIVE_OK ∧
    (copyData pathname blocks s).2.trace = s.trace ++ copyTrace blocks ∧
    ((copyData pathname blocks s).2.files pathname).getD [] =
      blocks.foldl (fun file b => writeAt file b.offset b.written)
        ((s.files pathname).getD []) ∧
    (∀ p, p ≠ pathname → (copyData pathname blocks s).2.files p = s.files p) := by
  induction blocks generalizing s with
  | nil =>
    refine ⟨rfl, rfl, rfl, fun p _ => rfl⟩
  | cons b rest ih =>
    obtain ⟨h1, h2, h3⟩ := hok b (List.mem_cons_self _ _)
    obtain ⟨i1, i2, i3, i4⟩ := ih (archive_write_data_block pathname b (s.log .readDataBlock)).2
      (fun x hx => hok x (List.mem_cons_of_mem _ hx))
    rw [copyData_cons, if_neg h1, if_neg h2, if_neg h3]
    refine ⟨i1, ?_, ?_, ?_⟩
    · rw [i2]
      simp [archive_write_data_block, h3, State.log, State.setFile, copyTrace]
    · rw [i3]
      simp [archive_write_data_block, h3, State.log, State.setFile]
    · intro p hp
      rw [i4 p hp]
      simp [archive_write_data_block, h3, State.log, State.setFile, hp]

/-- C4: when no read and no write of the data of an entry fails, `copyData` returns
`ARCHIVE_OK` and its library calls are one read and one write per block, in order, each write
with the buffer, size and offset of the block just read, then the read that reports the end.
Starting from the empty file the header write leaves, a byte no block covers reads as zero,
and a byte covered by a block (and by no later one) is the byte of that block at the block's
own offset. -/
theorem copyData_copies_blocks (pathname : String) (blocks : List DataBlock) (s : State)
    (hok : ∀ b ∈ blocks, b.readResult ≠ ARCHIVE_EOF ∧ ¬ b.readResult < ARCHIVE_WARN ∧
      ¬ b.writeResult < ARCHIVE_WARN)
    (hfresh : s.files pathname = some []) :
    (copyData pathname blocks s).1 = ARCHIVE_OK ∧
    (copyData pathname blocks s).2.trace = s.trace ++ copyTrace blocks ∧
    (∀ q : Nat, (∀ b ∈ blocks, ¬ b.covers q) →
      readByte (((copyData pathname blocks s).2.files pathname).getD []) q = Char.ofNat 0) ∧
    (∀ (q : Nat) (pre post : List DataBlock) (b : DataBlock),
      blocks = pre ++ b :: post → b.covers q → (∀ x ∈ post, ¬ x.covers q) →
      readByte (((copyData pathname blocks s).2.files pathname).getD []) q =
        readByte b.written (q - b.offset.toNat)) := by
  obtain ⟨h1, h2, h3, _⟩ := copyData_without_failure pathname blocks s hok
  refine ⟨h1, h2, ?_, ?_⟩
  · intro q hq
    rw [h3, readByte_foldl_uncovered blocks _ q hq, hfresh]
    rfl
  · intro q pre post b hsplit hb hpost
    rw [h3, hsplit, readByte_foldl_covered pre post b _ q hb hpost]

/-- Instance of C4: the sparse blocks `ab` at offset 0 and `cd` at offset 5 give the file
`ab`, three zero bytes, `cd`. -/
theorem copyData_copies_blocks_witness :
    ((copyData "game.bin" sparseBlocks
        (State.start (fun _ => some []))).2.files "game.bin").getD [] =
      ['a', 'b', Char.ofNat 0, Char.ofNat 0, Char.ofNat 0, 'c', 'd'] ∧
    (copyData "game.bin" sparseBlocks (State.start (fun _ => some []))).1 = ARCHIVE_OK ∧
    (copyData "game.bin" sparseBlocks (State.start (fun _ => some []))).2.trace =
      (State.start (fun _ => some [])).trace ++ copyTrace sparseBlocks :=
  ⟨by decide,
   (copyData_copies_blocks "game.bin" sparseBlocks (State.start (fun _ => some []))
      (by decide) rfl).1,
   (copyData_copies_blocks "game.bin" sparseBlocks (State.start (fun _ => some []))
      (by decide) rfl).2.1⟩

/-! ## UpdatePipeline: the version marker after an update -/

theorem copyData_file_of_some (pathname : String) (blocks : List DataBlock) (s : State)
    (content : List Char) (hok : ∀ b ∈ blocks, b.copied)
    (hfile : s.files pathname = some content) :
    (copyData pathname blocks s).2.files pathname =
      some (blocks.foldl (fun file b => writeAt file b.offset b.written) content) := by
  induction blocks generalizing s content with
  | nil => exact hfile
  | cons b rest ih =>
    obtain ⟨h1, h2, h3⟩ := hok b (List.mem_cons_self _ _)
    rw [copyData_cons, if_neg h1, if_neg h2, if_neg h3, List.foldl_cons]
    apply ih _ _ (fun x hx => hok x (List.mem_cons_of_mem _ hx))
    simp [archive_write_data_block, h3, State.log, State.setFile, hfile]

/-- One turn of the loop of `extract` for an entry that is extracted without failure. -/
theorem extractLoop_extracted (e : ArchiveEntry) (rest : List ArchiveEntry) (s : State)
    (he : e.extracted) :
    ∃ s1 : State, extractLoop (e :: rest) s = extractLoop rest s1 ∧
      s1.files e.pathname = some (entryContent e) ∧
      ∀ p, p ≠ e.pathname → s1.files p = s.files p := by
  obtain ⟨h1, h2, h3, h4, h5⟩ := he
  have hhead : (archive_write_header e (s.log .readNextHeader)).2.files e.pathname =
      some [] := by
    simp [archive_write_header, h3, State.log, State.setFile]
  have hother : ∀ p, p ≠ e.pathname →
      (archive_write_header e (s.log .readNextHeader)).2.files p = s.files p := by
    intro p hp
    simp [archive_write_header, h3, State.log, State.setFile, hp]
  obtain ⟨c1, _, _, c4⟩ := copyData_without_failure e.pathname e.blocks
    (archive_write_header e (s.log .readNextHeader)).2 h4
  have c3 := copyData_file_of_some e.pathname e.blocks
    (archive_write_header e (s.log .readNextHeader)).2 [] h4 hhead
  have hres : ¬ (copyData e.pathname e.blocks
      (archive_write_header e (s.log .readNextHeader)).2).1 < ARCHIVE_WARN := by
    rw [c1]
    decide
  refine ⟨(copyData e.pathname e.blocks
      (archive_write_header e (s.log .readNextHeader)).2).2.log .writeFinishEntry, ?_, ?_, ?_⟩
  · rw [extractLoop_cons, if_neg h1, if_neg h2, if_neg h3, if_neg hres, if_neg h5]
  · exact c3
  · intro p hp
    have := c4 p hp
    rw [hother p hp] at this
    exact this

theorem extractLoop_other_paths (entries : List ArchiveEntry) (s : State) (p : String)
    (hall : ∀ e ∈ entries, e.extracted) (hp : ∀ e ∈ entries, e.pathname ≠ p) :
    (extractLoop entries s).1 = .ok () ∧ (extractLoop entries s).2.files p = s.files p := by
  induction entries generalizing s with
  | nil => exact ⟨rfl, rfl⟩
  | cons e rest ih =>
    obtain ⟨s1, hstep, _, hoth⟩ := extractLoop_extracted e rest s (hall e (List.mem_cons_self _ _))
    rw [hstep]
    have hi := ih s1 (fun x hx => hall x (List.mem_cons_of_mem _ hx))
      (fun x hx => hp x (List.mem_cons_of_mem _ hx))
    refine ⟨hi.1, ?_⟩
    rw [hi.2]
    exact hoth p (fun h => hp e (List.mem_cons_self _ _) h.symm)

theorem extractLoop_last_entry (pre post : List ArchiveEntry) (v : ArchiveEntry) (s : State)
    (hall : ∀ e ∈ pre ++ v :: post, e.extracted)
    (hpost : ∀ e ∈ post, e.pathname ≠ v.pathname) :
    (extractLoop (pre ++ v :: post) s).1 = .ok () ∧
    (extractLoop (pre ++ v :: post) s).2.files v.pathname = some (entryContent v) := by
  induction pre generalizing s with
  | nil =>
    rw [List.nil_append] at hall ⊢
    obtain ⟨s1, hstep, hfile, _⟩ :=
      extractLoop_extracted v post s (hall v (List.mem_cons_self _ _))
    rw [hstep]
    have hi := extractLoop_other_paths post s1 v.pathname
      (fun x hx => hall x (List.mem_cons_of_mem _ hx)) hpost
    exact ⟨hi.1, by rw [hi.2, hfile]⟩
  | cons e pre ih =>
    rw [List.cons_append] at hall ⊢
    obtain ⟨s1, hstep, _, _⟩ :=
      extractLoop_extracted e (pre ++ v :: post) s (hall e (List.mem_cons_self _ _))
    rw [hstep]
    exact ih s1 (fun x hx => hall x (List.mem_cons_of_mem _ hx))

theorem installUpdate_version_marker (env : Env) (s : State) (pre post : List ArchiveEntry)
    (v : ArchiveEntry)
    (hdl : (downloadUpdate env s).1 = .ok ())
    (hdecode : env.decode
      (env.transfer (if env.win32 then windowsReleaseURL else env.linuxReleaseURL)).body =
        some (pre ++ v :: post))
    (hall : ∀ e ∈ pre ++ v :: post, e.extracted)
    (hpost : ∀ e ∈ post, e.pathname ≠ v.pathname) :
    (installUpdate env s).1 = .ok () ∧
    (installUpdate env s).2.files v.pathname = some (entryContent v) := by
  have hfile : (downloadUpdate env s).2.files "update/update.zip" =
      some (env.transfer (if env.win32 then windowsReleaseURL else env.linuxReleaseURL)).body := by
    revert hdl
    unfold downloadUpdate
    split
    · exact downloadFile_file env windowsReleaseURL "update/update.zip" s
    · exact downloadFile_file env env.linuxReleaseURL "update/update.zip" s
  unfold installUpdate
  rcases hdu : downloadUpdate env s with ⟨o, s1⟩
  rw [hdu] at hdl hfile
  simp only at hdl hfile
  subst hdl
  simp only [extract, State.log, hfile, Option.some_bind, hdecode]
  exact extractLoop_last_entry pre post v _ hall hpost

/-- C10 as stated fails: with local token `1.0`, remote token `1.2` and a bundle that holds
a game file but no `version` file, the download and the extraction complete, yet the local
`version` file still holds `1.0`, and the next run with the same remote token installs again
instead of reporting that the install is up to date. -/
theorem runUpdater_version_marker_not_written :
    (getVersionFromFile "version" (State.start demoFiles)).1 = .ok "1.0" ∧
    (getLatestVersion (archiveEnv [gameEntry]) (State.start demoFiles)).1 = .ok "1.2" ∧
    (runUpdater (archiveEnv [gameEntry]) (State.start demoFiles)).1 = .ok () ∧
    (runUpdater (archiveEnv [gameEntry]) (State.start demoFiles)).2.trace.filter isInstallCall =
      [.downloadFile windowsReleaseURL "update/update.zip", .extract "update/update.zip"] ∧
    (getVersionFromFile "version"
      (runUpdater (archiveEnv [gameEntry]) (State.start demoFiles)).2).1 = .ok "1.0" ∧
    (runUpdater (archiveEnv [gameEntry])
      (State.start (runUpdater (archiveEnv [gameEntry]) (State.start demoFiles)).2.files)).2.trace.getLast?
      = some (.print "\rUpdate complete                                 ") := by
  decide

/-- C10, amended: when the tokens differ, the bundle download returns normally, every step of
every entry of the bundle is carried out without failure, and the last entry of the bundle for
the path `version` holds data whose first token is the remote token, then `runUpdater` returns
normally, the local `version` file afterwards holds the remote token, and the next run (a fresh
process over the files left behind, same remote token) returns normally with the up-to-date
message and without a bundle download or an extraction call. -/
theorem runUpdater_version_marker (env : Env) (s : State) (a b : String)
    (pre post : List ArchiveEntry) (v : ArchiveEntry)
    (hdir : env.createDirectoryThrows = false)
    (hlocal : (getVersionFromFile "version" s).1 = .ok a)
    (hremote : (getLatestVersion env s).1 = .ok b)
    (hne : b ≠ a)
    (hdl : (downloadUpdate env s).1 = .ok ())
    (hdecode : env.decode
      (env.transfer (if env.win32 then windowsReleaseURL else env.linuxReleaseURL)).body =
        some (pre ++ v :: post))
    (hall : ∀ e ∈ pre ++ v :: post, e.extracted)
    (hv : v.pathname = "version")
    (hpost : ∀ e ∈ post, e.pathname ≠ "version")
    (htoken : streamExtract (entryContent v) "" = b) :
    (runUpdater env s).1 = .ok () ∧
    (getVersionFromFile "version" (runUpdater env s).2).1 = .ok b ∧
    (runUpdater env (State.start (runUpdater env s).2.files)).1 = .ok () ∧
    (runUpdater env (State.start (runUpdater env s).2.files)).2.trace.getLast? =
      some (.print "You have the latest version of Tails Adventure Remake") ∧
    (runUpdater env (State.start (runUpdater env s).2.files)).2.trace.filter isInstallCall =
      [] := by
  obtain ⟨s1, _, hrun⟩ := runUpdater_after_tokens env s a b hdir hlocal hremote
  rw [if_pos hne] at hrun
  have hdl1 : (downloadUpdate env
      (s1.log (.print ("Newer version " ++ b ++ " is available, installing...")))).1 =
      .ok () := by
    rw [downloadUpdate_outcome_congr env _ s]
    exact hdl
  have hpost1 : ∀ e ∈ post, e.pathname ≠ v.pathname := by
    rw [hv]
    exact hpost
  obtain ⟨hi1, hi2⟩ := installUpdate_version_marker env
    (s1.log (.print ("Newer version " ++ b ++ " is available, installing...")))
    pre post v hdl1 hdecode hall hpost1
  rw [hv] at hi2
  rcases hiu : installUpdate env
    (s1.log (.print ("Newer version " ++ b ++ " is available, installing..."))) with ⟨o, s2⟩
  rw [hiu] at hrun hi1 hi2
  simp only at hi1 hi2
  subst hi1
  simp only at hrun
  have hfiles : (runUpdater env s).2.files "version" = some (entryContent v) := by
    rw [hrun]
    exact hi2
  have hmarker : ∀ t : State, t.files "version" = some (entryContent v) →
      (getVersionFromFile "version" t).1 = .ok b := by
    intro t ht
    simp [getVersionFromFile, ht, htoken]
  have hlocal2 := hmarker (State.start (runUpdater env s).2.files) hfiles
  have hremote2 : (getLatestVersion env (State.start (runUpdater env s).2.files)).1 = .ok b := by
    rw [getLatestVersion_outcome_congr env _ s]
    exact hremote
  obtain ⟨s3, hc3, hrun2⟩ := runUpdater_after_tokens env
    (State.start (runUpdater env s).2.files) b b hdir hlocal2 hremote2
  refine ⟨?_, hmarker _ hfiles, ?_, ?_, ?_⟩
  · rw [hrun]
  · rw [hrun2]
    simp
  · rw [hrun2]
    simp [State.log]
  · rw [hrun2]
    simp only [ne_eq, not_true_eq_false, if_false]
    rw [log_installCalls _
      (Event.print "You have the latest version of Tails Adventure Remake") rfl, hc3]
    rfl

/-- Instance of the amended C10: local `1.0`, remote `1.2`, and a bundle whose entries are a
game file and a `version` file that holds `1.2`. -/
theorem runUpdater_version_marker_witness :
    (runUpdater (archiveEnv [gameEntry, versionEntry]) (State.start demoFiles)).1 = .ok () ∧
    (getVersionFromFile "version"
      (runUpdater (archiveEnv [gameEntry, versionEntry]) (State.start demoFiles)).2).1
      = .ok "1.2" ∧
    (runUpdater (archiveEnv [gameEntry, versionEntry])
      (State.start (runUpdater (archiveEnv [gameEntry, versionEntry])
        (State.start demoFiles)).2.files)).1 = .ok () ∧
    (runUpdater (archiveEnv [gameEntry, versionEntry])
      (State.start (runUpdater (archiveEnv [gameEntry, versionEntry])
        (State.start demoFiles)).2.files)).2.trace.getLast? =
      some (.print "You have the latest version of Tails Adventure Remake") ∧
    (runUpdater (archiveEnv [gameEntry, versionEntry])
      (State.start (runUpdater (archiveEnv [gameEntry, versionEntry])
        (State.start demoFiles)).2.files)).2.trace.filter isInstallCall = [] :=
  runUpdater_version_marker (archiveEnv [gameEntry, versionEntry]) (State.start demoFiles)
    "1.0" "1.2" [gameEntry] [] versionEntry rfl (by decide) (by decide) (by decide)
    (by decide) rfl
    (by decide) rfl (by decide) (by decide)

/-! ## ArchiveExtractor: the severity threshold -/

theorem copyData_result_congr (pathname : String) (blocks : List DataBlock) (s t : State) :
    (copyData pathname blocks s).1 = (copyData pathname blocks t).1 := by
  induction blocks generalizing s t with
  | nil => rfl
  | cons b rest ih =>
    rw [copyData_cons, copyData_cons]
    split_ifs
    · rfl
    · rfl
    · rfl
    · exact ih _ _

theorem extractLoop_prefix (pre l : List ArchiveEntry) (s : State)
    (hpre : ∀ x ∈ pre, x.extracted) :
    ∃ s1 : State, extractLoop (pre ++ l) s = extractLoop l s1 := by
  induction pre generalizing s with
  | nil => exact ⟨s, rfl⟩
  | cons x pre ih =>
    obtain ⟨s1, hstep, _, _⟩ :=
      extractLoop_extracted x (pre ++ l) s (hpre x (List.mem_cons_self _ _))
    obtain ⟨s2, h2⟩ := ih s1 (fun y hy => hpre y (List.mem_cons_of_mem _ hy))
    exact ⟨s2, by rw [List.cons_append, hstep, h2]⟩

theorem extract_of_archive (env : Env) (filename : String) (s : State)
    (entries : List ArchiveEntry)
    (harchive : (s.files filename).bind env.decode = some entries) :
    extract env filename s =
      extractLoop entries
        ((s.log (.extract filename)).log
          (.print "\rExtracting...                                    ")) := by
  simp only [extract, State.log, harchive]

theorem copyData_below_warn (pathname : String) (pre post : List DataBlock) (b : DataBlock)
    (t : State) (hpre : ∀ x ∈ pre, x.copied)
    (hb : b.readResult < ARCHIVE_WARN ∨
      (b.readResult ≠ ARCHIVE_EOF ∧ b.writeResult < ARCHIVE_WARN)) :
    (copyData pathname (pre ++ b :: post) t).1 < ARCHIVE_WARN ∧
    (copyData pathname (pre ++ b :: post) t).1 =
      if b.readResult < ARCHIVE_WARN then b.readResult else b.writeResult := by
  induction pre generalizing t with
  | nil =>
    rw [List.nil_append, copyData_cons]
    rcases hb with h | ⟨h1, h2⟩
    · have hne : b.readResult ≠ ARCHIVE_EOF := by
        intro h0
        rw [h0] at h
        exact absurd h (by decide)
      simp [hne, h]
    · by_cases h : b.readResult < ARCHIVE_WARN
      · simp [h1, h]
      · simp [h1, h, h2]
  | cons x pre ih =>
    obtain ⟨hx1, hx2, hx3⟩ := hpre x (List.mem_cons_self _ _)
    rw [List.cons_append, copyData_cons, if_neg hx1, if_neg hx2, if_neg hx3]
    exact ih _ (fun y hy => hpre y (List.mem_cons_of_mem _ hy))

/-- C3 as stated fails: `ARCHIVE_WARN` is at the threshold, yet an entry whose header read,
header write, block read, block write and finish all return `ARCHIVE_WARN` is extracted to the
end: `copyData` writes the block and returns `ARCHIVE_OK`, and `extract` returns normally. -/
theorem extract_continues_at_warn :
    warnEntry.nextHeaderResult ≤ ARCHIVE_WARN ∧
    (copyData "game.bin" warnEntry.blocks (State.start (fun _ => none))).1 = ARCHIVE_OK ∧
    (copyData "game.bin" warnEntry.blocks (State.start (fun _ => none))).2.trace =
      [.readDataBlock, .writeDataBlock "ab".toList 2 0, .readDataBlock] ∧
    (extract (archiveEnv [warnEntry]) "update/update.zip"
      (State.start (fun _ => some bundleBytes))).1 = .ok () := by
  decide

/-- C3, amended: `extract` on an archive whose entries before `e` are extracted. If a result of
the header read, the header write, `copyData` or the finish step of `e` is strictly below
`ARCHIVE_WARN` (so `ARCHIVE_FAILED` or `ARCHIVE_FATAL`) and `archive_error_string(src)` gives
a text, `extract` throws "unpack error: " followed by that text. If all results of `e` are at
or above `ARCHIVE_WARN` (`ARCHIVE_WARN` included) the entry is extracted and the loop goes on
with the entries after it, and `extract` returns normally when that holds of every entry. In
`copyData`, after blocks that were copied, a read or write result strictly below
`ARCHIVE_WARN` ends the loop and is the value returned, and results at or above
`ARCHIVE_WARN` do not end it: every block is read and written and `ARCHIVE_OK` is returned.
The value `copyData` returns depends on the blocks only, so it is stated at the state `s`. -/
theorem extract_aborts_below_warn (env : Env) (filename : String) (s : State)
    (pre rest : List ArchiveEntry) (e : ArchiveEntry)
    (harchive : (s.files filename).bind env.decode = some (pre ++ e :: rest))
    (hpre : ∀ x ∈ pre, x.extracted) :
    (∀ text : String, e.errorString = some text → e.nextHeaderResult ≠ ARCHIVE_EOF →
      (e.nextHeaderResult < ARCHIVE_WARN ∨ e.writeHeaderResult < ARCHIVE_WARN ∨
        (copyData e.pathname e.blocks s).1 < ARCHIVE_WARN ∨
        e.finishResult < ARCHIVE_WARN) →
      (extract env filename s).1 = .raised (.updater ("unpack error: " ++ text))) ∧
    (e.extracted →
      ∃ s1 : State, extract env filename s = extractLoop rest s1 ∧
        s1.files e.pathname = some (entryContent e)) ∧
    (e.extracted → (∀ x ∈ rest, x.extracted) → (extract env filename s).1 = .ok ()) ∧
    (∀ (pathname : String) (bpre bpost : List DataBlock) (b : DataBlock) (t : State),
      (∀ x ∈ bpre, x.copied) →
      (b.readResult < ARCHIVE_WARN ∨
        (b.readResult ≠ ARCHIVE_EOF ∧ b.writeResult < ARCHIVE_WARN)) →
      (copyData pathname (bpre ++ b :: bpost) t).1 < ARCHIVE_WARN ∧
      (copyData pathname (bpre ++ b :: bpost) t).1 =
        if b.readResult < ARCHIVE_WARN then b.readResult else b.writeResult) ∧
    (∀ (pathname : String) (blocks : List DataBlock) (t : State),
      (∀ b ∈ blocks, b.copied) →
      (copyData pathname blocks t).1 = ARCHIVE_OK ∧
      (copyData pathname blocks t).2.trace = t.trace ++ copyTrace blocks) := by
  obtain ⟨s1, hs1⟩ := extractLoop_prefix pre (e :: rest)
    ((s.log (.extract filename)).log
      (.print "\rExtracting...                                    ")) hpre
  have hrun : extract env filename s = extractLoop (e :: rest) s1 := by
    rw [extract_of_archive env filename s _ harchive, hs1]
  refine ⟨?_, ?_, ?_, ?_, ?_⟩
  · intro text htext hne hlow
    have herr : unpackError e = .updater ("unpack error: " ++ text) := by
      simp [unpackError, htext]
    rw [hrun, extractLoop_cons, if_neg hne]
    split_ifs with h1 h2 h3 h4
    · rw [herr]
    · rw [herr]
    · rw [herr]
    · rw [herr]
    · rw [copyData_result_congr e.pathname e.blocks _ s] at h3
      rcases hlow with h | h | h | h <;> contradiction
  · intro he
    obtain ⟨s2, hstep, hfile, _⟩ := extractLoop_extracted e rest s1 he
    exact ⟨s2, by rw [hrun, hstep], hfile⟩
  · intro he hrest
    obtain ⟨s2, hstep, _, _⟩ := extractLoop_extracted e rest s1 he
    obtain ⟨s3, h3⟩ := extractLoop_prefix rest [] s2 hrest
    rw [hrun, hstep, ← List.append_nil rest, h3]
    rfl
  · intro pathname bpre bpost b t hbpre hb
    exact copyData_below_warn pathname bpre bpost b t hbpre hb
  · intro pathname blocks t hblocks
    obtain ⟨h1, h2, _, _⟩ := copyData_without_failure pathname blocks t hblocks
    exact ⟨h1, h2⟩

/-- Instance of the amended C3: after a game file, an entry whose header read returns
`ARCHIVE_FATAL` with the text `Truncated input file` makes `extract` throw; an entry whose
calls all return `ARCHIVE_WARN` is extracted and `extract` returns normally; a copy whose
third block is read with `ARCHIVE_FATAL` returns that value. -/
theorem extract_aborts_below_warn_witness :
    (extract (archiveEnv [gameEntry, fatalHeaderEntry, warnEntry]) "update/update.zip"
        (State.start (fun _ => some bundleBytes))).1 =
      .raised (.updater ("unpack error: " ++ "Truncated input file")) ∧
    (extract (archiveEnv [gameEntry, warnEntry]) "update/update.zip"
        (State.start (fun _ => some bundleBytes))).1 = .ok () ∧
    ((copyData "game.bin"
        (sparseBlocks ++ { readResult := ARCHIVE_FATAL, buff := [], size := 0, offset := 0,
                           writeResult := ARCHIVE_OK } :: sparseBlocks)
        (State.start (fun _ => none))).1 < ARCHIVE_WARN ∧
     (copyData "game.bin"
        (sparseBlocks ++ { readResult := ARCHIVE_FATAL, buff := [], size := 0, offset := 0,
                           writeResult := ARCHIVE_OK } :: sparseBlocks)
        (State.start (fun _ => none))).1 =
      if ARCHIVE_FATAL < ARCHIVE_WARN then ARCHIVE_FATAL else ARCHIVE_OK) :=
  ⟨(extract_aborts_below_warn (archiveEnv [gameEntry, fatalHeaderEntry, warnEntry])
      "update/update.zip" (State.start (fun _ => some bundleBytes))
      [gameEntry] [warnEntry] fatalHeaderEntry (by decide) (by decide)).1
      "Truncated input file" rfl (by decide) (Or.inl (by decide)),
   (extract_aborts_below_warn (archiveEnv [gameEntry, warnEntry])
      "update/update.zip" (State.start (fun _ => some bundleBytes))
      [gameEntry] [] warnEntry (by decide) (by decide)).2.2.1 (by decide) (by decide),
   (extract_aborts_below_warn (archiveEnv [gameEntry, warnEntry])
      "update/update.zip" (State.start (fun _ => some bundleBytes))
      [gameEntry] [] warnEntry (by decide) (by decide)).2.2.2.1
      "game.bin" sparseBlocks sparseBlocks
      { readResult := ARCHIVE_FATAL, buff := [], size := 0, offset := 0,
        writeResult := ARCHIVE_OK }
      (State.start (fun _ => none)) (by decide) (Or.inl (by decide))⟩

end Updater
